import Mathlib

/-!
# logrotee: the rotation engine

A shallow embedding of `src/logrotee.cpp` (class `Logrotatee` and the free
functions it calls) together with theorems about it.

* A `std::string` / C string is a list of characters (`Str`), one `Char` per byte.
* The file system is a map from paths to the contents of regular files;
  `fopen(…, "a")`, `std::remove`, `rename` and `fputs` are its operations.
  Every path is writable in this model, so the `exit(EXIT_FAILURE)` branch of
  `rotateLog` (taken only when `fopen` fails) is never reached.
* `size_t` values are naturals reduced modulo `2 ^ 64`; the `int` counter
  `nameSuffix` is an integer whose increment wraps in two's complement.
* The input is the list of C strings that the successive `fgets` calls of `go`
  return; each is shorter than `BUF_SIZE`.
-/

namespace Logrotee

/-- A byte string (`std::string`, or a NUL-terminated C string without its NUL). -/
abbrev Str := List Char

/-- The macro `BUF_SIZE`. -/
def BUF_SIZE : Nat := 4096

/-- One more than the largest `size_t`. -/
def SIZE_MODULUS : Nat := 2 ^ 64

/-- Reduction of an integer into the range of `int` (two's complement). -/
def wrapInt (i : Int) : Int := (i + 2 ^ 31) % 2 ^ 32 - 2 ^ 31

/-- The fields of `struct Arguments` that the engine reads. -/
structure Arguments where
  logFilePath : Str
  compressCommand : Str
  compressSuffix : Str
  nullStdout : Bool
  chunkSize : Nat
  dates : Bool
  maxFiles : Int

/-- Regular files by path: `none` when no file has that name. -/
abbrev FileSystem := Str → Option Str

/-- The file system without any file. -/
def emptyFS : FileSystem := fun _ => none

/-- The function `fileExists` of the source: `stat` succeeds on the name. -/
def fileExists (fs : FileSystem) (name : Str) : Bool := (fs name).isSome

/-- The library call `std::remove`: the name no longer denotes a file. -/
def remove (fs : FileSystem) (name : Str) : FileSystem :=
  fun p => if p = name then none else fs p

/-- The library call `rename`: fails, changing nothing, when the old name does not exist;
otherwise the file is afterwards found under the new name only (replacing what was there). -/
def rename (fs : FileSystem) (oldName newName : Str) : FileSystem :=
  match fs oldName with
  | none => fs
  | some content => fun p => if p = newName then some content else if p = oldName then none else fs p

/-- The library call `fopen(path, "a")`: creates an empty file unless one exists. -/
def fopenAppend (fs : FileSystem) (path : Str) : FileSystem :=
  match fs path with
  | none => fun p => if p = path then some [] else fs p
  | some _ => fs

/-- The library call `fputs` on the stream opened on `path`, observed once the stream is
flushed: the string is appended to the file. -/
def fputs (fs : FileSystem) (path : Str) (s : Str) : FileSystem :=
  match fs path with
  | none => fs
  | some content => fun p => if p = path then some (content ++ s) else fs p

/-- The conversion `%d` of `snprintf`. -/
def fmtInt (i : Int) : Str :=
  if i < 0 then '-' :: Nat.toDigits 10 i.natAbs else Nat.toDigits 10 i.natAbs

/-- The name `logFilePath + ".%d"` built by `getNewChunkName`. -/
def chunkName (logFilePath : Str) (index : Int) : Str :=
  logFilePath ++ '.' :: fmtInt index

/-- The state of a `Logrotatee` object together with the part of the world it acts on.
The last field is a history variable: it is written, never read, by the engine. -/
structure Logrotatee where
  /-- Whether `logFile` is non-null, i.e. a stream on the live file is open. -/
  logFile : Bool
  bytesInChunk : Nat
  nameSuffix : Int
  /-- The file system. -/
  fs : FileSystem
  /-- The bytes `go` has written to standard output so far (before `go` runs, the
  constructor of `Arguments` has already printed the log file path there). -/
  stdout : Str
  /-- The commands `execCompression` was called with, oldest first. -/
  launched : List Str
  /-- History: for each `rename` of `rotateLog`, the new name and what the file system
  holds under it right after the call. -/
  renamed : List (Str × Option Str)

/-- The constructor `Logrotatee(args)`, in a world with the given files. -/
def Logrotatee.new (fs : FileSystem) : Logrotatee :=
  { logFile := false, bytesInChunk := 0, nameSuffix := 0, fs := fs, stdout := [],
    launched := [], renamed := [] }

/-- The method `Logrotatee::getNewChunkName`. -/
def getNewChunkName (args : Arguments) (self : Logrotatee) : Str × Logrotatee :=
  let name := chunkName args.logFilePath self.nameSuffix
  let fs1 := if fileExists self.fs name then remove self.fs name else self.fs
  let fs2 := if fileExists fs1 (name ++ args.compressSuffix)
    then remove fs1 (name ++ args.compressSuffix) else fs1
  let nameSuffix := wrapInt (self.nameSuffix + 1)
  let nameSuffix := if nameSuffix ≥ args.maxFiles then 0 else nameSuffix
  (name, { self with fs := fs2, nameSuffix := nameSuffix })

/-- The position `str.find(what)`: the least offset at which `what` occurs in `str`, or
`none` for `string::npos`. -/
def find : Str → Str → Option Nat
  | [], what => if what = [] then some 0 else none
  | c :: cs, what =>
    if what.isPrefixOf (c :: cs) then some 0 else (find cs what).map (· + 1)

/-- The function `replaceSubstring`. -/
def replaceSubstring (str what with_ : Str) : Str :=
  match find str what with
  | none => str
  | some startPos => str.take startPos ++ with_ ++ str.drop (startPos + what.length)

/-- The placeholder of the compression command: an opening and a closing brace. -/
def placeholder : Str := [Char.ofNat 123, Char.ofNat 125]

/-- The function `execCompression`, seen from the engine: the call is recorded with the
command it was given and returns. Forking and the child process, which runs
`system(command)`, are outside the model. -/
def execCompression (command : Str) (self : Logrotatee) : Logrotatee :=
  { self with launched := self.launched ++ [command] }

/-- The method `Logrotatee::rotateLog`. -/
def rotateLog (args : Arguments) (self : Logrotatee) : Logrotatee :=
  let self :=
    if self.logFile then
      let (newName, self) := getNewChunkName args self
      let self := { self with logFile := false }
      let fs := rename self.fs args.logFilePath newName
      let self := { self with fs := fs, renamed := self.renamed ++ [(newName, fs newName)] }
      if args.compressCommand ≠ [] then
        execCompression (replaceSubstring args.compressCommand placeholder newName) self
      else self
    else self
  { self with fs := fopenAppend self.fs args.logFilePath, logFile := true }

/-- The body of the loop of `Logrotatee::go` for one string `s` returned by `fgets`. -/
def goBody (args : Arguments) (self : Logrotatee) (s : Str) : Logrotatee :=
  let self := { self with fs := fputs self.fs args.logFilePath s }
  let self := if !args.nullStdout then { self with stdout := self.stdout ++ s } else self
  let length := s.length
  let self := { self with bytesInChunk := (self.bytesInChunk + length) % SIZE_MODULUS }
  if length > 0 ∧ self.bytesInChunk ≥ args.chunkSize then
    let isLineBreak := s.getLast? == some '\n'
    let breakAnyway := decide (self.bytesInChunk ≥ args.chunkSize * 12 % SIZE_MODULUS / 10)
    if isLineBreak || breakAnyway then
      let self := rotateLog args self
      { self with bytesInChunk := 0 }
    else self
  else self

/-- The method `Logrotatee::go` on the strings read from standard input. -/
def go (args : Arguments) (self : Logrotatee) (lines : List Str) : Logrotatee :=
  let self := rotateLog args self
  let self := lines.foldl (goBody args) self
  { self with logFile := false }

/-- The state of `go` once its loop has consumed `lines`, before the final `fclose`. -/
def goAfter (args : Arguments) (self : Logrotatee) (lines : List Str) : Logrotatee :=
  lines.foldl (goBody args) (rotateLog args self)

/-- A configuration for worked examples: live file `log`, suffix `.gz`, passthrough on,
numeric naming, with the given command, chunk size and ring size. -/
def exampleArgs (compressCommand : Str) (chunkSize : Nat) (maxFiles : Int) : Arguments :=
  { logFilePath := ['l', 'o', 'g'], compressCommand := compressCommand,
    compressSuffix := ['.', 'g', 'z'], nullStdout := false, chunkSize := chunkSize,
    dates := false, maxFiles := maxFiles }

/-! ## Auxiliary definitions used in the proofs -/

/-- The index that follows `i` in `getNewChunkName`. -/
def nextSuffix (maxFiles i : Int) : Int :=
  if wrapInt (i + 1) ≥ maxFiles then 0 else wrapInt (i + 1)

/-- The deletions made by `getNewChunkName` for the name `name`. -/
def evict (fs : FileSystem) (name suffix : Str) : FileSystem :=
  remove (remove fs name) (name ++ suffix)

/-- Whether the loop body rotates after writing `s` with `b` bytes counted before. -/
def rotates (args : Arguments) (b : Nat) (s : Str) : Bool :=
  let b1 := (b + s.length) % SIZE_MODULUS
  decide (s.length > 0 ∧ b1 ≥ args.chunkSize) &&
    (s.getLast? == some '\n' || decide (b1 ≥ args.chunkSize * 12 % SIZE_MODULUS / 10))

/-- The file system holding one file. -/
def singleFile (path content : Str) : FileSystem :=
  fun p => if p = path then some content else none

theorem remove_of_absent (fs : FileSystem) (name : Str) (h : fs name = none) :
    remove fs name = fs := by
  funext p
  by_cases hp : p = name
  · simp [remove, hp, h]
  · simp [remove, hp]

theorem getNewChunkName_fst (args : Arguments) (st : Logrotatee) :
    (getNewChunkName args st).1 = chunkName args.logFilePath st.nameSuffix := rfl

theorem getNewChunkName_snd (args : Arguments) (st : Logrotatee) :
    (getNewChunkName args st).2 =
      { st with fs := evict st.fs (chunkName args.logFilePath st.nameSuffix) args.compressSuffix,
                nameSuffix := nextSuffix args.maxFiles st.nameSuffix } := by
  have h2 : ∀ (g : FileSystem) (q : Str),
      (if fileExists g q then remove g q else g) = remove g q := by
    intro g q
    split
    · rfl
    · rename_i h
      rw [remove_of_absent]
      simpa [fileExists] using h
  simp only [getNewChunkName, nextSuffix, evict, h2]

theorem rotateLog_of_closed (args : Arguments) (st : Logrotatee) (h : st.logFile = false) :
    rotateLog args st =
      { st with fs := fopenAppend st.fs args.logFilePath, logFile := true } := by
  simp [rotateLog, h]

theorem rotateLog_of_open (args : Arguments) (st : Logrotatee) (h : st.logFile = true) :
    rotateLog args st =
      { logFile := true
        bytesInChunk := st.bytesInChunk
        nameSuffix := nextSuffix args.maxFiles st.nameSuffix
        fs := fopenAppend (rename (evict st.fs (chunkName args.logFilePath st.nameSuffix)
                args.compressSuffix) args.logFilePath (chunkName args.logFilePath st.nameSuffix))
                args.logFilePath
        stdout := st.stdout
        launched := if args.compressCommand ≠ [] then
            st.launched ++ [replaceSubstring args.compressCommand placeholder
              (chunkName args.logFilePath st.nameSuffix)]
          else st.launched
        renamed := st.renamed ++ [(chunkName args.logFilePath st.nameSuffix,
            rename (evict st.fs (chunkName args.logFilePath st.nameSuffix)
                args.compressSuffix) args.logFilePath (chunkName args.logFilePath st.nameSuffix)
              (chunkName args.logFilePath st.nameSuffix))] } := by
  unfold rotateLog
  rw [if_pos h]
  have h1 := getNewChunkName_fst args st
  have h2 := getNewChunkName_snd args st
  rcases hg : getNewChunkName args st with ⟨name, st1⟩
  rw [hg] at h1 h2
  simp only at h1 h2
  subst h1 h2
  by_cases hc : args.compressCommand = []
  · simp [hc]
  · simp [hc, execCompression]

theorem goBody_eq (args : Arguments) (st : Logrotatee) (s : Str) :
    goBody args st s =
      if rotates args st.bytesInChunk s then
        { rotateLog args
            { st with
              fs := fputs st.fs args.logFilePath s
              stdout := if args.nullStdout then st.stdout else st.stdout ++ s
              bytesInChunk := (st.bytesInChunk + s.length) % SIZE_MODULUS } with
          bytesInChunk := 0 }
      else
        { st with
          fs := fputs st.fs args.logFilePath s
          stdout := if args.nullStdout then st.stdout else st.stdout ++ s
          bytesInChunk := (st.bytesInChunk + s.length) % SIZE_MODULUS } := by
  unfold goBody rotates
  cases hn : args.nullStdout <;>
  by_cases h1 : s.length > 0 ∧ (st.bytesInChunk + s.length) % SIZE_MODULUS ≥ args.chunkSize <;>
  by_cases h2 : (s.getLast? == some '\n' ||
      decide ((st.bytesInChunk + s.length) % SIZE_MODULUS
        ≥ args.chunkSize * 12 % SIZE_MODULUS / 10)) = true <;>
  simp [h1, h2]

theorem go_eq (args : Arguments) (st : Logrotatee) (lines : List Str) :
    go args st lines = { goAfter args st lines with logFile := false } := rfl

theorem goAfter_snoc (args : Arguments) (st : Logrotatee) (lines : List Str) (s : Str) :
    goAfter args st (lines ++ [s]) = goBody args (goAfter args st lines) s := by
  simp [goAfter, List.foldl_append]

/-- Induction along the loop of `go`: a property of the state relative to the lines read so
far that holds after the initial `rotateLog` and is preserved by the loop body holds after
any input. -/
theorem goAfter_induction (args : Arguments) (st : Logrotatee)
    (P : List Str → Logrotatee → Prop) (h0 : P [] (rotateLog args st))
    (hstep : ∀ pre cur s, P pre cur → P (pre ++ [s]) (goBody args cur s))
    (lines : List Str) : P lines (goAfter args st lines) := by
  induction lines using List.reverseRecOn with
  | nil => simpa [goAfter] using h0
  | append_singleton pre s ih =>
    rw [goAfter_snoc]
    exact hstep pre _ s ih

theorem rotateLog_logFile (args : Arguments) (st : Logrotatee) :
    (rotateLog args st).logFile = true := by
  cases h : st.logFile
  · rw [rotateLog_of_closed args st h]
  · rw [rotateLog_of_open args st h]

theorem rotateLog_bytesInChunk (args : Arguments) (st : Logrotatee) :
    (rotateLog args st).bytesInChunk = st.bytesInChunk := by
  cases h : st.logFile
  · rw [rotateLog_of_closed args st h]
  · rw [rotateLog_of_open args st h]

theorem goBody_logFile (args : Arguments) (st : Logrotatee) (s : Str)
    (h : st.logFile = true) : (goBody args st s).logFile = true := by
  rw [goBody_eq]
  split
  · simp [rotateLog_logFile]
  · exact h

theorem goAfter_logFile (args : Arguments) (st : Logrotatee) (lines : List Str) :
    (goAfter args st lines).logFile = true :=
  goAfter_induction args st (fun _ cur => cur.logFile = true) (rotateLog_logFile args st)
    (fun _ cur s h => goBody_logFile args cur s h) lines

theorem goBody_bytesInChunk (args : Arguments) (st : Logrotatee) (s : Str) :
    (goBody args st s).bytesInChunk =
      if rotates args st.bytesInChunk s then 0
      else (st.bytesInChunk + s.length) % SIZE_MODULUS := by
  rw [goBody_eq]
  split <;> rfl

theorem goBody_renamed_of_not_rotates (args : Arguments) (st : Logrotatee) (s : Str)
    (h : rotates args st.bytesInChunk s = false) : (goBody args st s).renamed = st.renamed := by
  rw [goBody_eq]
  simp [h]

theorem goBody_renamed_of_rotates (args : Arguments) (st : Logrotatee) (s : Str)
    (ho : st.logFile = true) (h : rotates args st.bytesInChunk s = true) :
    (goBody args st s).renamed.length = st.renamed.length + 1 := by
  rw [goBody_eq]
  simp only [h, if_true]
  rw [rotateLog_of_open _ _ (by exact ho)]
  simp

theorem rotates_iff (args : Arguments) (b : Nat) (s : Str) :
    rotates args b s = true ↔
      (0 < s.length ∧ args.chunkSize ≤ (b + s.length) % SIZE_MODULUS) ∧
      (s.getLast? = some '\n' ∨
        args.chunkSize * 12 % SIZE_MODULUS / 10 ≤ (b + s.length) % SIZE_MODULUS) := by
  simp [rotates]

/-- The counter stays below the overflow cap (or is zero) along the loop of `go`. -/
theorem goAfter_bytesInChunk_bound (args : Arguments) (st : Logrotatee) (lines : List Str)
    (h0 : st.bytesInChunk = 0) :
    (goAfter args st lines).bytesInChunk = 0 ∨
      10 * (goAfter args st lines).bytesInChunk < 12 * args.chunkSize := by
  refine goAfter_induction args st
    (fun _ cur => cur.bytesInChunk = 0 ∨ 10 * cur.bytesInChunk < 12 * args.chunkSize) ?_ ?_ lines
  · left
    rw [rotateLog_bytesInChunk, h0]
  · intro pre cur s ih
    rw [goBody_bytesInChunk]
    cases hr : rotates args cur.bytesInChunk s
    · simp only [Bool.false_eq_true, if_false]
      have hr2 : ¬ (rotates args cur.bytesInChunk s = true) := by simp [hr]
      rw [rotates_iff] at hr2
      simp only [SIZE_MODULUS] at hr2 ⊢
      have hle : (cur.bytesInChunk + s.length) % 2 ^ 64 ≤ cur.bytesInChunk + s.length :=
        Nat.mod_le _ _
      by_cases hl : s.length = 0
      · rw [hl] at hle ⊢
        simp only [Nat.add_zero] at hle ⊢
        rcases ih with ih | ih
        · left
          rw [ih]
          rfl
        · right
          omega
      · right
        by_cases hc : args.chunkSize ≤ (cur.bytesInChunk + s.length) % 2 ^ 64
        · have h3 : ¬ (args.chunkSize * 12 % 2 ^ 64 / 10 ≤
              (cur.bytesInChunk + s.length) % 2 ^ 64) := by
            intro h4
            exact hr2 ⟨⟨Nat.pos_of_ne_zero hl, hc⟩, Or.inr h4⟩
          have h5 : args.chunkSize * 12 % 2 ^ 64 ≤ args.chunkSize * 12 := Nat.mod_le _ _
          omega
        · omega
    · simp

/-- C3: whenever writing a line makes the loop of `go` rotate (a file is renamed), the byte
counter of the current file, the line just written included, is at least `chunkSize`;
this holds for every configuration and input, with or without a line terminator. -/
theorem rotation_needs_chunkSize (args : Arguments) (fs0 : FileSystem) (pre : List Str)
    (s : Str)
    (h : (goBody args (goAfter args (Logrotatee.new fs0) pre) s).renamed ≠
      (goAfter args (Logrotatee.new fs0) pre).renamed) :
    args.chunkSize ≤
      ((goAfter args (Logrotatee.new fs0) pre).bytesInChunk + s.length) % SIZE_MODULUS := by
  cases hr : rotates args (goAfter args (Logrotatee.new fs0) pre).bytesInChunk s
  · exact absurd (goBody_renamed_of_not_rotates _ _ _ hr) h
  · rw [rotates_iff] at hr
    exact hr.1.2

/-- Witness of C3: with `chunkSize = 2`, the line `a\n` written first rotates, and the
counter is then 2. -/
theorem rotation_needs_chunkSize_witness :
    (goBody (exampleArgs [] 2 3) (goAfter (exampleArgs [] 2 3) (Logrotatee.new emptyFS) [])
        ['a', '\n']).renamed ≠
      (goAfter (exampleArgs [] 2 3) (Logrotatee.new emptyFS) []).renamed ∧
    (exampleArgs [] 2 3).chunkSize ≤
      ((goAfter (exampleArgs [] 2 3) (Logrotatee.new emptyFS) []).bytesInChunk
        + ['a', '\n'].length) % SIZE_MODULUS :=
  ⟨by decide, rotation_needs_chunkSize (exampleArgs [] 2 3) emptyFS [] ['a', '\n'] (by decide)⟩

/-- Counterexample to C4 as stated: with `chunkSize = 1` the unterminated line `x` leaves
the counter at 1, which is at least `chunkSize` and below `1.2 × chunkSize`, and the write
rotates all the same, so rotation is not equivalent to the exact comparison. -/
theorem exact_cap_counterexample :
    ['x'] ≠ [] ∧ ['x'].getLast? ≠ some '\n' ∧
    (exampleArgs [] 1 3).chunkSize ≤
      ((goAfter (exampleArgs [] 1 3) (Logrotatee.new emptyFS) []).bytesInChunk
        + ['x'].length) % SIZE_MODULUS ∧
    ¬ ((goBody (exampleArgs [] 1 3) (goAfter (exampleArgs [] 1 3) (Logrotatee.new emptyFS) [])
          ['x']).renamed.length =
        (goAfter (exampleArgs [] 1 3) (Logrotatee.new emptyFS) []).renamed.length + 1 ↔
      12 * (exampleArgs [] 1 3).chunkSize ≤
        10 * (((goAfter (exampleArgs [] 1 3) (Logrotatee.new emptyFS) []).bytesInChunk
          + ['x'].length) % SIZE_MODULUS)) := by
  decide

/-- C4 (amended): for a non-empty line `s` without line terminator, written after any input
`pre`: if `chunkSize * 12` does not wrap and the counter `b` after the write is at least
`chunkSize`, the write rotates if and only if `b ≥ chunkSize * 12 / 10` (integer division);
and if `s` is longer than `chunkSize × 1.2` (and shorter than `BUF_SIZE`), the write
rotates. -/
theorem unterminated_line_rotation (args : Arguments) (fs0 : FileSystem) (pre : List Str)
    (s : Str) (hne : s ≠ []) (hnl : s.getLast? ≠ some '\n') :
    (args.chunkSize * 12 < SIZE_MODULUS →
      args.chunkSize ≤
        ((goAfter args (Logrotatee.new fs0) pre).bytesInChunk + s.length) % SIZE_MODULUS →
      ((goBody args (goAfter args (Logrotatee.new fs0) pre) s).renamed.length =
          (goAfter args (Logrotatee.new fs0) pre).renamed.length + 1 ↔
        args.chunkSize * 12 / 10 ≤
          ((goAfter args (Logrotatee.new fs0) pre).bytesInChunk + s.length) % SIZE_MODULUS)) ∧
    (s.length < BUF_SIZE → 12 * args.chunkSize < 10 * s.length →
      (goBody args (goAfter args (Logrotatee.new fs0) pre) s).renamed.length =
        (goAfter args (Logrotatee.new fs0) pre).renamed.length + 1) := by
  have hopen := goAfter_logFile args (Logrotatee.new fs0) pre
  have hpos : 0 < s.length := List.length_pos.mpr hne
  constructor
  · intro hw hb
    constructor
    · intro hlen
      cases hr : rotates args (goAfter args (Logrotatee.new fs0) pre).bytesInChunk s
      · rw [goBody_renamed_of_not_rotates _ _ _ hr] at hlen
        omega
      · rw [rotates_iff] at hr
        rcases hr.2 with h | h
        · exact absurd h hnl
        · rwa [Nat.mod_eq_of_lt hw] at h
    · intro hcap
      apply goBody_renamed_of_rotates _ _ _ hopen
      rw [rotates_iff]
      refine ⟨⟨hpos, hb⟩, Or.inr ?_⟩
      rwa [Nat.mod_eq_of_lt hw]
  · intro hbuf hlong
    apply goBody_renamed_of_rotates _ _ _ hopen
    rw [rotates_iff]
    have hbound := goAfter_bytesInChunk_bound args (Logrotatee.new fs0) pre rfl
    simp only [BUF_SIZE] at hbuf
    simp only [SIZE_MODULUS]
    have hlt : (goAfter args (Logrotatee.new fs0) pre).bytesInChunk + s.length < 2 ^ 64 := by
      rcases hbound with h | h <;> omega
    rw [Nat.mod_eq_of_lt hlt]
    have hw : args.chunkSize * 12 < 2 ^ 64 := by omega
    rw [Nat.mod_eq_of_lt hw]
    refine ⟨⟨hpos, by omega⟩, Or.inr (by omega)⟩

/-- Witness of C4 (amended): with `chunkSize = 10`, eleven bytes without terminator leave
the counter at 11, at least `chunkSize`, and are deferred, 11 being below 12; an
unterminated line of 13 bytes rotates. -/
theorem unterminated_line_rotation_witness :
    List.replicate 11 'x' ≠ [] ∧ (List.replicate 11 'x').getLast? ≠ some '\n' ∧
    (exampleArgs [] 10 3).chunkSize * 12 < SIZE_MODULUS ∧
    (exampleArgs [] 10 3).chunkSize ≤
      ((goAfter (exampleArgs [] 10 3) (Logrotatee.new emptyFS) []).bytesInChunk
        + (List.replicate 11 'x').length) % SIZE_MODULUS ∧
    ((goBody (exampleArgs [] 10 3) (goAfter (exampleArgs [] 10 3) (Logrotatee.new emptyFS) [])
        (List.replicate 11 'x')).renamed.length =
        (goAfter (exampleArgs [] 10 3) (Logrotatee.new emptyFS) []).renamed.length + 1 ↔
      (exampleArgs [] 10 3).chunkSize * 12 / 10 ≤
        ((goAfter (exampleArgs [] 10 3) (Logrotatee.new emptyFS) []).bytesInChunk
          + (List.replicate 11 'x').length) % SIZE_MODULUS) ∧
    (List.replicate 13 'x').length < BUF_SIZE ∧
    12 * (exampleArgs [] 10 3).chunkSize < 10 * (List.replicate 13 'x').length ∧
    (goBody (exampleArgs [] 10 3) (goAfter (exampleArgs [] 10 3) (Logrotatee.new emptyFS) [])
        (List.replicate 13 'x')).renamed.length =
      (goAfter (exampleArgs [] 10 3) (Logrotatee.new emptyFS) []).renamed.length + 1 :=
  ⟨by decide, by decide, by decide, by decide,
    (unterminated_line_rotation (exampleArgs [] 10 3) emptyFS [] (List.replicate 11 'x')
      (by decide) (by decide)).1 (by decide) (by decide),
    by decide, by decide,
    (unterminated_line_rotation (exampleArgs [] 10 3) emptyFS [] (List.replicate 13 'x')
      (by decide) (by decide)).2 (by decide) (by decide)⟩

/-! ## The live file and the chunks -/

theorem chunkName_ne_base (base : Str) (i : Int) : chunkName base i ≠ base := by
  intro h
  have := congrArg List.length h
  simp [chunkName] at this

theorem chunkName_append_ne_base (base suffix : Str) (i : Int) :
    chunkName base i ++ suffix ≠ base := by
  intro h
  have := congrArg List.length h
  simp [chunkName] at this

/-- The file system after the rename-and-reopen of `rotateLog`, when the live file exists. -/
theorem rotate_fs (fs : FileSystem) (base name suffix content : Str)
    (hlive : fs base = some content) (h1 : name ≠ base) (h2 : name ++ suffix ≠ base) :
    fopenAppend (rename (evict fs name suffix) base name) base =
      fun p => if p = base then some [] else if p = name then some content
        else if p = name ++ suffix then none else fs p := by
  have hb : evict fs name suffix base = some content := by
    simp [evict, remove, Ne.symm h1, Ne.symm h2, hlive]
  have hr : rename (evict fs name suffix) base name =
      fun p => if p = name then some content else if p = base then none
        else evict fs name suffix p := by
    simp [rename, hb]
  have hn : rename (evict fs name suffix) base name base = none := by
    rw [hr]
    simp [Ne.symm h1]
  funext p
  simp only [fopenAppend, hn]
  rw [hr]
  by_cases hp : p = base
  · simp [hp]
  · by_cases hq : p = name
    · simp [hp, hq, h1]
    · by_cases hs : p = name ++ suffix
      · simp [hp, hq, hs, evict, remove]
      · simp [hp, hq, hs, evict, remove]

theorem rotate_fs_newName (fs : FileSystem) (base name suffix content : Str)
    (hlive : fs base = some content) (h1 : name ≠ base) (h2 : name ++ suffix ≠ base) :
    rename (evict fs name suffix) base name name = some content := by
  have hb : evict fs name suffix base = some content := by
    simp [evict, remove, Ne.symm h1, Ne.symm h2, hlive]
  simp [rename, hb]

theorem fputs_of_live (fs : FileSystem) (base content s : Str) (hlive : fs base = some content) :
    fputs fs base s = fun p => if p = base then some (content ++ s) else fs p := by
  simp [fputs, hlive]

/-- The loop body when it rotates. -/
theorem goBody_of_rotates (args : Arguments) (st : Logrotatee) (s live : Str)
    (ho : st.logFile = true) (hlive : st.fs args.logFilePath = some live)
    (hr : rotates args st.bytesInChunk s = true) :
    goBody args st s =
      { logFile := true
        bytesInChunk := 0
        nameSuffix := nextSuffix args.maxFiles st.nameSuffix
        fs := fun p => if p = args.logFilePath then some []
          else if p = chunkName args.logFilePath st.nameSuffix then some (live ++ s)
          else if p = chunkName args.logFilePath st.nameSuffix ++ args.compressSuffix then none
          else st.fs p
        stdout := if args.nullStdout then st.stdout else st.stdout ++ s
        launched := if args.compressCommand ≠ [] then
            st.launched ++ [replaceSubstring args.compressCommand placeholder
              (chunkName args.logFilePath st.nameSuffix)]
          else st.launched
        renamed := st.renamed ++ [(chunkName args.logFilePath st.nameSuffix, some (live ++ s))] } := by
  rw [goBody_eq]
  simp only [hr, if_true]
  rw [rotateLog_of_open _ _ (by exact ho)]
  have hl2 : fputs st.fs args.logFilePath s args.logFilePath = some (live ++ s) := by
    simp [fputs_of_live _ _ _ _ hlive]
  simp only
  rw [rotate_fs _ _ _ _ _ hl2 (chunkName_ne_base _ _) (chunkName_append_ne_base _ _ _),
    rotate_fs_newName _ _ _ _ _ hl2 (chunkName_ne_base _ _) (chunkName_append_ne_base _ _ _)]
  congr 1
  funext p
  by_cases hp : p = args.logFilePath
  · simp [hp]
  · simp [hp, fputs_of_live _ _ _ _ hlive]

theorem find_cons (c : Char) (cs what : Str) :
    find (c :: cs) what =
      if what.isPrefixOf (c :: cs) then some 0 else (find cs what).map (· + 1) := rfl

theorem find_of_first (what post : Str) :
    ∀ pre : Str, (∀ j, j < pre.length → ¬ what <+: (pre ++ what ++ post).drop j) →
      find (pre ++ what ++ post) what = some pre.length := by
  intro pre
  induction pre with
  | nil =>
    intro _
    cases hw : what ++ post with
    | nil =>
      obtain ⟨h1, h2⟩ := List.append_eq_nil.mp hw
      subst h1 h2
      simp [find]
    | cons c cs =>
      have hp : what.isPrefixOf (c :: cs) = true := by
        rw [List.isPrefixOf_iff_prefix, ← hw]
        exact List.prefix_append _ _
      simp [find, hw, hp]
  | cons c pre ih =>
    intro h
    have h0 : ¬ what <+: (c :: pre ++ what ++ post) := by
      simpa using h 0 (by simp)
    have hp : what.isPrefixOf (c :: (pre ++ what ++ post)) = false := by
      rw [Bool.eq_false_iff]
      intro hc
      rw [List.isPrefixOf_iff_prefix] at hc
      exact h0 (by simpa using hc)
    have ih2 := ih (fun j hj => by simpa using h (j + 1) (by simpa using hj))
    have hc : c :: pre ++ what ++ post = c :: (pre ++ what ++ post) := rfl
    rw [hc, find_cons, hp, ih2]
    simp

theorem find_of_not_infix : ∀ str what : Str, ¬ what <:+: str → find str what = none := by
  intro str
  induction str with
  | nil =>
    intro what h
    have : what ≠ [] := by
      rintro rfl
      exact h List.nil_infix
    simp [find, this]
  | cons c cs ih =>
    intro what h
    have hp : what.isPrefixOf (c :: cs) = false := by
      rw [Bool.eq_false_iff]
      intro hc
      rw [List.isPrefixOf_iff_prefix] at hc
      exact h hc.isInfix
    have h2 : ¬ what <:+: cs := fun hc => h (hc.trans (List.infix_cons (List.infix_refl _)))
    simp [find, hp, ih what h2]

/-- The first occurrence of `what` is the one replaced. -/
theorem replaceSubstring_of_first (pre what post name : Str)
    (h : ∀ j, j < pre.length → ¬ what <+: (pre ++ what ++ post).drop j) :
    replaceSubstring (pre ++ what ++ post) what name = pre ++ name ++ post := by
  unfold replaceSubstring
  rw [find_of_first what post pre h]
  have h1 : (pre ++ what ++ post).take pre.length = pre := by
    rw [List.append_assoc, List.take_left']
    rfl
  have h2 : (pre ++ what ++ post).drop (pre.length + what.length) = post := by
    rw [← List.length_append, List.drop_left']
    rfl
  simp only [h1, h2]

/-- A string without occurrence of `what` is returned as it is. -/
theorem replaceSubstring_of_not_infix (str what name : Str) (h : ¬ what <:+: str) :
    replaceSubstring str what name = str := by
  simp [replaceSubstring, find_of_not_infix str what h]

theorem goBody_launched (args : Arguments) (st : Logrotatee) (s : Str)
    (ho : st.logFile = true) :
    ∃ added : List (Str × Option Str),
      (goBody args st s).renamed = st.renamed ++ added ∧
      (goBody args st s).launched = st.launched ++
        if args.compressCommand = [] then []
        else added.map (fun r => replaceSubstring args.compressCommand placeholder r.1) := by
  cases hr : rotates args st.bytesInChunk s
  · refine ⟨[], ?_, ?_⟩
    · rw [goBody_renamed_of_not_rotates _ _ _ hr]
      simp
    · rw [goBody_eq]
      simp [hr]
  · rw [goBody_eq]
    simp only [hr, if_true]
    rw [rotateLog_of_open _ _ (by exact ho)]
    refine ⟨[(chunkName args.logFilePath st.nameSuffix, _)], rfl, ?_⟩
    by_cases hc : args.compressCommand = [] <;> simp [hc]

theorem goAfter_launched (args : Arguments) (fs0 : FileSystem) (lines : List Str) :
    (goAfter args (Logrotatee.new fs0) lines).launched =
      if args.compressCommand = [] then []
      else (goAfter args (Logrotatee.new fs0) lines).renamed.map
        (fun r => replaceSubstring args.compressCommand placeholder r.1) := by
  have key := goAfter_induction args (Logrotatee.new fs0)
    (fun _ cur => cur.logFile = true ∧ cur.launched =
      if args.compressCommand = [] then []
      else cur.renamed.map (fun r => replaceSubstring args.compressCommand placeholder r.1))
    ?_ ?_ lines
  · exact key.2
  · refine ⟨rotateLog_logFile _ _, ?_⟩
    rw [rotateLog_of_closed _ _ rfl]
    simp [Logrotatee.new]
  · rintro pre cur s ⟨ho, hl⟩
    refine ⟨goBody_logFile _ _ _ ho, ?_⟩
    obtain ⟨added, h1, h2⟩ := goBody_launched args cur s ho
    rw [h2, h1, hl]
    by_cases hc : args.compressCommand = [] <;> simp [hc]

/-- C8: the commands handed to the launcher by `go` are, in order, one per rotation of the
write loop: the template with (the first occurrence of) the placeholder replaced by the
name the live file was renamed to when `compressCommand` is non-empty, and none when it is
empty; the initial rotation and the final close launch nothing. The replacement turns
`gzip` followed by the placeholder into `gzip` followed by the chunk name, and leaves a
template without placeholder unchanged. -/
theorem go_launched (args : Arguments) (fs0 : FileSystem) (lines : List Str) :
    (go args (Logrotatee.new fs0) lines).launched =
      (if args.compressCommand = [] then []
      else (go args (Logrotatee.new fs0) lines).renamed.map
        (fun r => replaceSubstring args.compressCommand placeholder r.1)) ∧
    (rotateLog args (Logrotatee.new fs0)).launched = [] ∧
    (go args (Logrotatee.new fs0) lines).launched =
      (goAfter args (Logrotatee.new fs0) lines).launched ∧
    (go args (Logrotatee.new fs0) []).launched = [] ∧
    (∀ pre post name : Str,
      (∀ j, j < pre.length → ¬ placeholder <+: (pre ++ placeholder ++ post).drop j) →
      replaceSubstring (pre ++ placeholder ++ post) placeholder name = pre ++ name ++ post) ∧
    (∀ name : Str,
      replaceSubstring (['g', 'z', 'i', 'p', ' '] ++ placeholder) placeholder name =
        ['g', 'z', 'i', 'p', ' '] ++ name) ∧
    (∀ cmd name : Str, ¬ placeholder <:+: cmd →
      replaceSubstring cmd placeholder name = cmd) := by
  refine ⟨?_, ?_, rfl, ?_, ?_, ?_, ?_⟩
  · rw [go_eq]
    exact goAfter_launched args fs0 lines
  · rw [rotateLog_of_closed _ _ rfl]
    rfl
  · rw [go_eq]
    show (rotateLog args (Logrotatee.new fs0)).launched = []
    rw [rotateLog_of_closed _ _ rfl]
    rfl
  · intro pre post name h
    exact replaceSubstring_of_first pre placeholder post name h
  · intro name
    have h := replaceSubstring_of_first ['g', 'z', 'i', 'p', ' '] placeholder [] name (by
      intro j hj
      simp only [List.length_cons, List.length_nil] at hj
      rw [← List.isPrefixOf_iff_prefix]
      interval_cases j <;> decide)
    simpa using h
  · intro cmd name h
    exact replaceSubstring_of_not_infix cmd placeholder name h

/-- Witness of C8: two rotations with the template `gzip` followed by the placeholder
launch `gzip log.0` and `gzip log.1`. -/
theorem go_launched_witness :
    (go (exampleArgs (['g', 'z', 'i', 'p', ' '] ++ placeholder) 2 3) (Logrotatee.new emptyFS)
      [['a', '\n'], ['b', '\n']]).launched =
      [['g', 'z', 'i', 'p', ' ', 'l', 'o', 'g', '.', '0'],
       ['g', 'z', 'i', 'p', ' ', 'l', 'o', 'g', '.', '1']] ∧
    (go (exampleArgs (['g', 'z', 'i', 'p', ' '] ++ placeholder) 2 3) (Logrotatee.new emptyFS)
      [['a', '\n'], ['b', '\n']]).renamed.map Prod.fst =
      [['l', 'o', 'g', '.', '0'], ['l', 'o', 'g', '.', '1']] :=
  ⟨((go_launched (exampleArgs (['g', 'z', 'i', 'p', ' '] ++ placeholder) 2 3) emptyFS
      [['a', '\n'], ['b', '\n']]).1).trans (by decide), by decide⟩

/-! ## Chunk names -/

/-- Counterexample to C9 as stated: with the `dates` flag set, the name computed for the
first rotation is the numeric one, `log.0`, and computing it deletes the compressed sibling
`log.0.gz` that was on disk. -/
theorem dates_counterexample :
    ({ exampleArgs [] 2 3 with dates := true } : Arguments).dates = true ∧
    (getNewChunkName { exampleArgs [] 2 3 with dates := true }
      (goAfter { exampleArgs [] 2 3 with dates := true }
        (Logrotatee.new (singleFile ['l', 'o', 'g', '.', '0', '.', 'g', 'z'] ['o', 'l', 'd']))
        [])).1 = ['l', 'o', 'g'] ++ '.' :: fmtInt 0 ∧
    (goAfter { exampleArgs [] 2 3 with dates := true }
        (Logrotatee.new (singleFile ['l', 'o', 'g', '.', '0', '.', 'g', 'z'] ['o', 'l', 'd']))
        []).fs ['l', 'o', 'g', '.', '0', '.', 'g', 'z'] = some ['o', 'l', 'd'] ∧
    (getNewChunkName { exampleArgs [] 2 3 with dates := true }
      (goAfter { exampleArgs [] 2 3 with dates := true }
        (Logrotatee.new (singleFile ['l', 'o', 'g', '.', '0', '.', 'g', 'z'] ['o', 'l', 'd']))
        [])).2.fs ['l', 'o', 'g', '.', '0', '.', 'g', 'z'] = none := by
  decide

/-- C9 (amended): the chunk name computed on rotation is `logFilePath`, a dot and the
decimal `nameSuffix`, and the result of `getNewChunkName` is the same whether the `dates`
flag is set or not; after the call no file exists under that name nor under that name
followed by `compressSuffix`, and every other path is untouched. -/
theorem getNewChunkName_ignores_dates (args : Arguments) (st : Logrotatee) :
    (getNewChunkName args st).1 = args.logFilePath ++ '.' :: fmtInt st.nameSuffix ∧
    getNewChunkName { args with dates := true } st =
      getNewChunkName { args with dates := false } st ∧
    (getNewChunkName args st).2.fs (getNewChunkName args st).1 = none ∧
    (getNewChunkName args st).2.fs ((getNewChunkName args st).1 ++ args.compressSuffix) = none ∧
    ∀ p : Str, p ≠ (getNewChunkName args st).1 →
      p ≠ (getNewChunkName args st).1 ++ args.compressSuffix →
      (getNewChunkName args st).2.fs p = st.fs p := by
  refine ⟨rfl, rfl, ?_, ?_, ?_⟩
  · rw [getNewChunkName_snd, getNewChunkName_fst]
    simp [evict, remove]
  · rw [getNewChunkName_snd, getNewChunkName_fst]
    simp [evict, remove]
  · intro p h1 h2
    rw [getNewChunkName_fst] at h1 h2
    rw [getNewChunkName_snd]
    simp [evict, remove, h1, h2]

/-- Witness of C9 (amended): in the state reached after the start of `go` with the `dates`
flag set and `log.0.gz` on disk, the live file is not touched by `getNewChunkName`. -/
theorem getNewChunkName_ignores_dates_witness :
    (getNewChunkName { exampleArgs [] 2 3 with dates := true }
      (goAfter { exampleArgs [] 2 3 with dates := true }
        (Logrotatee.new (singleFile ['l', 'o', 'g', '.', '0', '.', 'g', 'z'] ['o', 'l', 'd']))
        [])).2.fs ['l', 'o', 'g'] =
    (goAfter { exampleArgs [] 2 3 with dates := true }
        (Logrotatee.new (singleFile ['l', 'o', 'g', '.', '0', '.', 'g', 'z'] ['o', 'l', 'd']))
        []).fs ['l', 'o', 'g'] :=
  (getNewChunkName_ignores_dates { exampleArgs [] 2 3 with dates := true }
    (goAfter { exampleArgs [] 2 3 with dates := true }
      (Logrotatee.new (singleFile ['l', 'o', 'g', '.', '0', '.', 'g', 'z'] ['o', 'l', 'd']))
      [])).2.2.2.2 ['l', 'o', 'g'] (by decide) (by decide)

theorem go_fs (args : Arguments) (st : Logrotatee) (lines : List Str) :
    (go args st lines).fs = (goAfter args st lines).fs := rfl

/-- Counterexample to C5 as stated: on the lines `a\n`, `b\n`, `c\n` with `chunkSize = 2`
and `maxFiles = 3`, from an empty directory, the third line rotates too, so that the live
file ends empty and does not contain `c\n`. -/
theorem end_to_end_counterexample :
    (go (exampleArgs [] 2 3) (Logrotatee.new emptyFS)
      [['a', '\n'], ['b', '\n'], ['c', '\n']]).fs ['l', 'o', 'g'] ≠ some ['c', '\n'] := by
  decide

theorem rotates_terminated_pair (args : Arguments) (c : Char) (hc : args.chunkSize = 2) :
    rotates args 0 [c, '\n'] = true := by
  rw [rotates_iff, hc]
  exact ⟨⟨by simp, by simp [SIZE_MODULUS]⟩, Or.inl rfl⟩

theorem chunkName_zero (base : Str) : chunkName base 0 = base ++ ['.', '0'] := rfl

theorem chunkName_one (base : Str) : chunkName base 1 = base ++ ['.', '1'] := rfl

theorem chunkName_two (base : Str) : chunkName base 2 = base ++ ['.', '2'] := rfl

/-- C5 (amended): running `go` on the lines `a\n`, `b\n`, `c\n` with `chunkSize = 2`,
`maxFiles = 3`, no compression command and an initially empty directory ends with chunk
`.0` containing `a\n`, chunk `.1` containing `b\n`, chunk `.2` containing `c\n`, the live
file at the base path empty, and no other file; no command is launched. -/
theorem end_to_end (args : Arguments) (hcmd : args.compressCommand = [])
    (hc : args.chunkSize = 2) (hm : args.maxFiles = 3) :
    (go args (Logrotatee.new emptyFS) [['a', '\n'], ['b', '\n'], ['c', '\n']]).fs =
      (fun p =>
        if p = args.logFilePath then some []
        else if p = args.logFilePath ++ ['.', '0'] then some ['a', '\n']
        else if p = args.logFilePath ++ ['.', '1'] then some ['b', '\n']
        else if p = args.logFilePath ++ ['.', '2'] then some ['c', '\n']
        else none) ∧
    (go args (Logrotatee.new emptyFS) [['a', '\n'], ['b', '\n'], ['c', '\n']]).launched
      = [] := by
  have hn1 : nextSuffix args.maxFiles 0 = 1 := by rw [hm]; decide
  have hn2 : nextSuffix args.maxFiles 1 = 2 := by rw [hm]; decide
  rw [go_fs]
  simp only [go, goAfter, List.foldl]
  rw [rotateLog_of_closed _ _ rfl]
  rw [goBody_of_rotates args _ ['a', '\n'] [] rfl (by simp [Logrotatee.new, fopenAppend, emptyFS])
    (rotates_terminated_pair args 'a' hc)]
  rw [goBody_of_rotates args _ ['b', '\n'] [] rfl (by simp)
    (rotates_terminated_pair args 'b' hc)]
  rw [goBody_of_rotates args _ ['c', '\n'] [] rfl (by simp)
    (rotates_terminated_pair args 'c' hc)]
  simp only [Logrotatee.new, hn1, hn2, chunkName_zero, chunkName_one, chunkName_two, hcmd,
    fopenAppend, emptyFS]
  refine ⟨?_, by simp⟩
  funext p
  by_cases h0 : p = args.logFilePath
  · simp [h0]
  · simp only [h0, if_false]
    by_cases h3 : p = args.logFilePath ++ ['.', '2']
    · simp [h3]
    · by_cases h2 : p = args.logFilePath ++ ['.', '1']
      · simp [h2]
      · by_cases h1 : p = args.logFilePath ++ ['.', '0']
        · simp [h1]
        · simp [h0, h1, h2, h3]

/-- Witness of C5 (amended): the configuration with live file `log`. -/
theorem end_to_end_witness :
    (exampleArgs [] 2 3).compressCommand = [] ∧ (exampleArgs [] 2 3).chunkSize = 2 ∧
    (exampleArgs [] 2 3).maxFiles = 3 ∧
    (go (exampleArgs [] 2 3) (Logrotatee.new emptyFS)
      [['a', '\n'], ['b', '\n'], ['c', '\n']]).fs =
      (fun p =>
        if p = (exampleArgs [] 2 3).logFilePath then some []
        else if p = (exampleArgs [] 2 3).logFilePath ++ ['.', '0'] then some ['a', '\n']
        else if p = (exampleArgs [] 2 3).logFilePath ++ ['.', '1'] then some ['b', '\n']
        else if p = (exampleArgs [] 2 3).logFilePath ++ ['.', '2'] then some ['c', '\n']
        else none) :=
  ⟨rfl, rfl, rfl, (end_to_end (exampleArgs [] 2 3) rfl rfl rfl).1⟩

/-! ## The byte counter -/

end Logrotee
